import Mathlib

/-!
Verification of the signature-authorized claim/allocation protocol of the
soteralabs-io/smart-contracts repository.

Part 1 embeds the Sui Move modules `wb::utility` and `wb::loyalty`
(src/unnamed/part_000, src/unnamed/part_001): the shared `Config` with its
used-nonce table and trusted signer key, the assertion helpers, and the four
loyalty entry functions `claim_box`, `sync`, `issue_loyalty_ticket` and
`apply_loyalty_ticket`.  A Move `assert!` failure aborts the whole
transaction with no state change, so each operation is embedded as an
`Except`-valued function: an `.error` outcome produces no successor state.
Machine integers are `u64`; additions that can overflow are embedded with an
explicit bound check (Move aborts on `u64` overflow), subtraction only occurs
under the source's own `<=` guard.

Part 2 (further below) models the EVM contract `BeyondLand`, whose Solidity
source is not in the repository (only its test harness is), from the
specification's description of the claim and public mint paths.
-/

namespace WB

/-- Abort reasons of the embedded Move code.  The first five mirror the
constants of `wb::utility` (ENotAdmin = 0, ENotUpgrade = 1, EWrongVersion = 2,
ENonceAlreadyUsed = 3, EInvalidSignature = 4); `eTicketTypeMisMatch` is
`wb::loyalty`'s ETicketTypeMisMatch = 0 and `eInsufficientCredits` its bare
`assert!(issuing_infinity_credits <= box.infinity_credits, 1)`.  The rest are
aborts raised by the Sui framework primitives the code calls:
`vec_map::get` on a missing key, `table::add` on a present key, and `u64`
overflow. -/
inductive MoveAbort where
  | eNotAdmin
  | eNotUpgrade
  | eWrongVersion
  | eNonceAlreadyUsed
  | eInvalidSignature
  | eTicketTypeMisMatch
  | eInsufficientCredits
  | eCollectionNotFound
  | eTableKeyExists
  | eArithmeticOverflow
  | eNoSuchObject
  deriving DecidableEq, Repr

/-- Module constant `VERSION: u64 = 2` of `wb::utility`. -/
def VERSION : Nat := 2

/-- One past the largest `u64` value. -/
def U64MOD : Nat := 2 ^ 64

/-- Modelled from the spec: the cryptographic primitives `sui::ed25519::ed25519_verify`
and `sui::hash::keccak256` are platform natives whose source is not in the
repository.  Per the specification (section 4.1) the verifier is a total
boolean function - it "returns false (never throws) on malformed signature
bytes" of any length - and the hash is a deterministic byte-string function.
Both are therefore carried as total functions on byte strings. -/
structure Env where
  ed25519Verify : List Nat → List Nat → List Nat → Bool
  keccak256 : List Nat → List Nat

/-- The `Config` struct of `wb::utility`: version, admin capability id,
trusted signer public key, the used-nonce table (the `table<u64, bool>`
dynamic object field installed by `add_used_nonces_table_dof`; we embed the
key set of that table) and the named collection map. -/
structure Config where
  version : Nat
  admin : Nat
  signer : List Nat
  usedNonces : List Nat
  collections : List (String × Nat)
  deriving DecidableEq, Repr

/-- View function `nonce_used`: membership of the nonce in the used-nonce
table (`table::contains`). -/
def nonce_used (c : Config) (n : Nat) : Bool :=
  c.usedNonces.contains n

/-- Helper `assert_version`: `assert!(config.version == VERSION, EWrongVersion)`. -/
def assert_version (c : Config) : Except MoveAbort Unit :=
  if c.version = VERSION then .ok () else .error .eWrongVersion

/-- Helper `assert_nonce`: `assert!(nonce_used(config, nonce) == false, ENonceAlreadyUsed)`. -/
def assert_nonce (c : Config) (n : Nat) : Except MoveAbort Unit :=
  if nonce_used c n = false then .ok () else .error .eNonceAlreadyUsed

/-- View function `signature_valid`: delegates to
`ed25519::ed25519_verify(signature, &config.signer, hashed_msg)`. -/
def signature_valid (env : Env) (c : Config) (signature hashedMsg : List Nat) : Bool :=
  env.ed25519Verify signature c.signer hashedMsg

/-- Helper `assert_signature`:
`assert!(signature_valid(config, signature, hashed_msg) == true, EInvalidSignature)`. -/
def assert_signature (env : Env) (c : Config) (signature hashedMsg : List Nat) :
    Except MoveAbort Unit :=
  if signature_valid env c signature hashedMsg = true then .ok () else .error .eInvalidSignature

/-- Friend function `mark_nonce_used`: `table::add(used_nonces, nonce, true)`,
which aborts when the key is already present (never hit by the entry
functions, which call `assert_nonce` first). -/
def mark_nonce_used (c : Config) (n : Nat) : Except MoveAbort Config :=
  if c.usedNonces.contains n then .error .eTableKeyExists
  else .ok { c with usedNonces := n :: c.usedNonces }

/-- View function `collection_id_by_name`: `vec_map::get` aborts when the
name is absent. -/
def collection_id_by_name (c : Config) (name : String) : Except MoveAbort Nat :=
  match c.collections.find? (fun p => p.1 = name) with
  | some p => .ok p.2
  | none => .error .eCollectionNotFound

/-- Entry function `set_signer` (admin capability holder only): overwrites the
trusted signer public key. -/
def set_signer (c : Config) (s : List Nat) : Config :=
  { c with signer := s }

/-- Entry function `add_collection` via `add_collection_internal`:
`vec_map::insert` aborts when the key already exists. -/
def add_collection (c : Config) (name : String) (v : Nat) : Except MoveAbort Config :=
  if (c.collections.find? (fun p => p.1 = name)).isSome then .error .eTableKeyExists
  else .ok { c with collections := c.collections ++ [(name, v)] }

/-- Entry function `migrate`: requires the admin capability's id to match and
`c.version < VERSION`, then sets `c.version := VERSION`. -/
def migrate (c : Config) (capId : Nat) : Except MoveAbort Config :=
  if c.admin ≠ capId then .error .eNotAdmin
  else if ¬ c.version < VERSION then .error .eNotUpgrade
  else .ok { c with version := VERSION }

/-- BCS serialization of a `u64`: eight little-endian bytes. -/
def bcs_u64 (n : Nat) : List Nat :=
  [n % 256, n / 256 % 256, n / 256 ^ 2 % 256, n / 256 ^ 3 % 256,
   n / 256 ^ 4 % 256, n / 256 ^ 5 % 256, n / 256 ^ 6 % 256, n / 256 ^ 7 % 256]

/-- The `Box` struct of `wb::loyalty`: a loyalty-point container.  The
`attributes: Attributes` field is carried as its key and value vectors. -/
structure Box where
  id : Nat
  type : Nat
  name : String
  infinity_credits : Nat
  attribute_keys : List String
  attribute_values : List String
  deriving DecidableEq, Repr

/-- The `Ticket` struct of `wb::loyalty`: a tradeable credit carrier. -/
structure Ticket where
  id : Nat
  type : Nat
  name : String
  infinity_credits : Nat
  attribute_keys : List String
  attribute_values : List String
  deriving DecidableEq, Repr

/-- Checked `u64` addition: Move aborts the transaction on overflow. -/
def u64_add (a b : Nat) : Except MoveAbort Nat :=
  if a + b < U64MOD then .ok (a + b) else .error .eArithmeticOverflow

/-- Entry function `claim_box`.  Checks in source order: `assert_version`,
`assert_nonce`, then the message `sender bytes ++ bcs(nonce) ++ bcs(type) ++
bcs(infinity_credits)` is keccak-hashed and `assert_signature` checked, then
`mark_nonce_used`, then the `Box` is created and transferred to the sender.
`sender` is the transaction sender's address bytes and `freshId` the id that
`object::new` hands out. -/
def claim_box (env : Env) (config : Config) (nonce : Nat) (type : Nat)
    (name : String) (infinity_credits : Nat)
    (attribute_keys attribute_values : List String)
    (signature : List Nat) (sender : List Nat) (freshId : Nat) :
    Except MoveAbort (Config × Box) := do
  let _ ← assert_version config
  let _ ← assert_nonce config nonce
  let msg := sender ++ bcs_u64 nonce ++ bcs_u64 type ++ bcs_u64 infinity_credits
  let hashedMsg := env.keccak256 msg
  let _ ← assert_signature env config signature hashedMsg
  let config ← mark_nonce_used config nonce
  let box : Box :=
    { id := freshId, type := type, name := name, infinity_credits := infinity_credits,
      attribute_keys := attribute_keys, attribute_values := attribute_values }
  .ok (config, box)

/-- Entry function `sync`.  Checks in source order: `assert_version`,
`assert_nonce`, message `sender bytes ++ bcs(nonce) ++ bcs(infinity_credits)`
hashed and `assert_signature`, `mark_nonce_used`, then
`box.infinity_credits = box.infinity_credits + infinity_credits` (u64 add). -/
def sync (env : Env) (config : Config) (box : Box) (nonce : Nat)
    (infinity_credits : Nat) (signature : List Nat) (sender : List Nat) :
    Except MoveAbort (Config × Box) := do
  let _ ← assert_version config
  let _ ← assert_nonce config nonce
  let msg := sender ++ bcs_u64 nonce ++ bcs_u64 infinity_credits
  let hashedMsg := env.keccak256 msg
  let _ ← assert_signature env config signature hashedMsg
  let config ← mark_nonce_used config nonce
  let credits ← u64_add box.infinity_credits infinity_credits
  .ok (config, { box with infinity_credits := credits })

/-- Entry function `issue_loyalty_ticket`.  Checks in source order:
`assert_version`, `assert_nonce`,
`assert!(issuing_infinity_credits <= box.infinity_credits, 1)`, message
`sender bytes ++ bcs(nonce) ++ recipient bytes ++ bcs(issuing)` hashed and
`assert_signature`, `mark_nonce_used`; then the box is debited, the `Ticket`
minted with the box's `type` and the issued credits, and
`collection_id_by_name(config, b"loyalty_ticket")` looked up for the mint
event (aborting the whole call if the collection was never registered). -/
def issue_loyalty_ticket (env : Env) (config : Config) (box : Box) (nonce : Nat)
    (name : String) (recipient : List Nat) (issuing_infinity_credits : Nat)
    (attribute_keys attribute_values : List String)
    (signature : List Nat) (sender : List Nat) (freshId : Nat) :
    Except MoveAbort (Config × Box × Ticket) := do
  let _ ← assert_version config
  let _ ← assert_nonce config nonce
  let _ ← if issuing_infinity_credits ≤ box.infinity_credits
    then Except.ok () else Except.error MoveAbort.eInsufficientCredits
  let msg := sender ++ bcs_u64 nonce ++ recipient ++ bcs_u64 issuing_infinity_credits
  let hashedMsg := env.keccak256 msg
  let _ ← assert_signature env config signature hashedMsg
  let config ← mark_nonce_used config nonce
  let box := { box with infinity_credits := box.infinity_credits - issuing_infinity_credits }
  let ticket : Ticket :=
    { id := freshId, type := box.type, name := name,
      infinity_credits := issuing_infinity_credits,
      attribute_keys := attribute_keys, attribute_values := attribute_values }
  let _ ← collection_id_by_name config "loyalty_ticket"
  .ok (config, box, ticket)

/-- Entry function `apply_loyalty_ticket`.  Checks in source order:
`assert_version`, `assert_nonce`, the ticket is unpacked and
`assert!(box.type == type, ETicketTypeMisMatch)` checked, message
`sender bytes ++ bcs(nonce)` hashed and `assert_signature`,
`mark_nonce_used`, then `box.infinity_credits = box.infinity_credits +
infinity_credits` (u64 add) and the burn event's collection lookup.  The
ticket is consumed by value. -/
def apply_loyalty_ticket (env : Env) (config : Config) (box : Box)
    (ticket : Ticket) (nonce : Nat) (signature : List Nat) (sender : List Nat) :
    Except MoveAbort (Config × Box) := do
  let _ ← assert_version config
  let _ ← assert_nonce config nonce
  let _ ← if box.type = ticket.type
    then Except.ok () else Except.error MoveAbort.eTicketTypeMisMatch
  let msg := sender ++ bcs_u64 nonce
  let hashedMsg := env.keccak256 msg
  let _ ← assert_signature env config signature hashedMsg
  let config ← mark_nonce_used config nonce
  let credits ← u64_add box.infinity_credits ticket.infinity_credits
  let _ ← collection_id_by_name config "loyalty_ticket"
  .ok (config, { box with infinity_credits := credits })

/-- Whole-ledger state for sequencing loyalty transactions: the shared
`Config` object plus the `Box` and `Ticket` objects in existence, addressed
by position. -/
structure LState where
  config : Config
  boxes : List Box
  tickets : List Ticket
  deriving DecidableEq, Repr

/-- One loyalty transaction: one of the four nonce-consuming entry functions
(with box and ticket arguments resolved by index into the ledger state) or
one of the admin entry functions of `wb::utility`. -/
inductive Req where
  | claimBoxReq (nonce type : Nat) (name : String) (infinity_credits : Nat)
      (akeys avals : List String) (signature sender : List Nat) (freshId : Nat)
  | syncReq (boxIdx nonce infinity_credits : Nat) (signature sender : List Nat)
  | issueTicketReq (boxIdx nonce : Nat) (name : String) (recipient : List Nat)
      (issuing : Nat) (akeys avals : List String) (signature sender : List Nat)
      (freshId : Nat)
  | applyTicketReq (boxIdx ticketIdx nonce : Nat) (signature sender : List Nat)
  | setSignerReq (s : List Nat)
  | addCollectionReq (name : String) (v : Nat)
  | migrateReq (capId : Nat)
  deriving DecidableEq, Repr

/-- The nonce a request presents, when it is one of the four nonce-consuming
operations. -/
def Req.nonce? : Req → Option Nat
  | .claimBoxReq n _ _ _ _ _ _ _ _ => some n
  | .syncReq _ n _ _ _ => some n
  | .issueTicketReq _ n _ _ _ _ _ _ _ _ => some n
  | .applyTicketReq _ _ n _ _ => some n
  | _ => none

/-- A request is well formed at a state when the objects it names exist
(in Move the caller must hold the actual `Box` / `Ticket` objects to invoke
the entry function at all). -/
def Req.wf (s : LState) : Req → Prop
  | .syncReq i _ _ _ _ => i < s.boxes.length
  | .issueTicketReq i _ _ _ _ _ _ _ _ _ => i < s.boxes.length
  | .applyTicketReq i t _ _ _ => i < s.boxes.length ∧ t < s.tickets.length
  | _ => True

instance (s : LState) (r : Req) : Decidable (r.wf s) := by
  cases r <;> simp [Req.wf] <;> infer_instance

/-- One transaction against the ledger state, dispatching to the embedded
entry function. -/
def step (env : Env) (s : LState) : Req → Except MoveAbort LState
  | .claimBoxReq nonce type name credits ak av sig sender freshId => do
    let (config, box) ← claim_box env s.config nonce type name credits ak av sig sender freshId
    .ok { s with config := config, boxes := s.boxes ++ [box] }
  | .syncReq boxIdx nonce credits sig sender => do
    match s.boxes[boxIdx]? with
    | none => .error .eNoSuchObject
    | some box => do
      let (config, box) ← sync env s.config box nonce credits sig sender
      .ok { s with config := config, boxes := s.boxes.set boxIdx box }
  | .issueTicketReq boxIdx nonce name recipient issuing ak av sig sender freshId => do
    match s.boxes[boxIdx]? with
    | none => .error .eNoSuchObject
    | some box => do
      let (config, box, ticket) ←
        issue_loyalty_ticket env s.config box nonce name recipient issuing ak av sig sender freshId
      .ok { s with config := config, boxes := s.boxes.set boxIdx box,
                   tickets := s.tickets ++ [ticket] }
  | .applyTicketReq boxIdx ticketIdx nonce sig sender => do
    match s.boxes[boxIdx]?, s.tickets[ticketIdx]? with
    | some box, some ticket => do
      let (config, box) ← apply_loyalty_ticket env s.config box ticket nonce sig sender
      .ok { s with config := config, boxes := s.boxes.set boxIdx box,
                   tickets := s.tickets.eraseIdx ticketIdx }
    | _, _ => .error .eNoSuchObject
  | .setSignerReq sg => .ok { s with config := set_signer s.config sg }
  | .addCollectionReq name v => do
    let config ← add_collection s.config name v
    .ok { s with config := config }
  | .migrateReq capId => do
    let config ← migrate s.config capId
    .ok { s with config := config }

/-- Transactional semantics of a Move call: an abort rolls the whole
transaction back, so a failed step leaves the pre-state and reports the
abort reason alongside it. -/
def applyReq (env : Env) (s : LState) (r : Req) : LState × Option MoveAbort :=
  match step env s r with
  | .ok t => (t, none)
  | .error e => (s, some e)

/-- Runs a sequence of transactions; failed ones leave the state unchanged. -/
def run (env : Env) (s : LState) (rs : List Req) : LState :=
  rs.foldl (fun t r => (applyReq env t r).1) s

end WB

namespace BL

/-- Revert reasons of the `BeyondLand` claim and public mint paths, named
after the specification's error taxonomy (section 7).  The corresponding
revert strings exercised by the test harness are noted:
`notStarted` = "Mint not started", `invalidSignature` = "Invalid signature",
`ceilingExceeded` = "Max claimable lands per address exceeded",
`claimSupplyExceeded` = "Max claimable lands exceeded",
`publicSupplyExceeded` = "Max public lands exceeded",
`perAddressLimitExceeded` = "Max lands per address exceeded",
`incorrectPayment` = "Ether value sent is not correct",
`zeroAmount` = the bare revert on a zero-amount public mint. -/
inductive LandError where
  | notStarted
  | invalidSignature
  | ceilingExceeded
  | claimSupplyExceeded
  | publicSupplyExceeded
  | perAddressLimitExceeded
  | incorrectPayment
  | zeroAmount
  deriving DecidableEq, Repr

/-- Looks an address up in a per-address counter (zero when absent). -/
def lookup0 (m : List (Nat × Nat)) (a : Nat) : Nat :=
  match m.find? (fun p => p.1 = a) with
  | some p => p.2
  | none => 0

/-- Adds `v` to the address's counter. -/
def bump (m : List (Nat × Nat)) (a v : Nat) : List (Nat × Nat) :=
  (a, lookup0 m a + v) :: m.filter (fun p => ¬ p.1 = a)

/-- Modelled from the spec: the `BeyondLand` EVM contract's storage.  The
Solidity source is not in the repository - only its test harness
(src/test/BeyondLand.ts) is - so the state is taken from the
specification's data model (sections 3 and 4.5): supply caps (`setSupply`),
issuance counters (`totalSupply` claim-path part and `totalLandsMinted`),
the per-address claim-path ledger and public-mint ledger, the admin gates
(`claimableActive`, `mintStartTime`/`mintEndTime`, `maxMintPerAddress`,
`mintPrice`).  Addresses are `Nat`. -/
structure LandState where
  maxClaimable : Nat
  maxPublic : Nat
  claimedCount : Nat
  publicMintedCount : Nat
  claimedOf : List (Nat × Nat)
  publicMintedOf : List (Nat × Nat)
  claimableActive : Bool
  mintStartTime : Nat
  mintEndTime : Nat
  maxMintPerAddress : Nat
  mintPrice : Nat
  deriving DecidableEq, Repr

/-- Modelled from the spec: `claimLands(amount, maxLands, signature)`.  The
Solidity body is absent from the repository; per the specification's
orchestrator (section 4.5) the checks are, in order: the claim-active gate
("Mint not started"), signature verification of the caller's address and
declared ceiling against the trusted signer ("Invalid signature" - `verify`
stands for the ecrecover comparison over `keccak256(address, maxLands)`),
the per-address ledger check `claimed[sender] + amount <= maxLands`
("Max claimable lands per address exceeded"), and the claim supply check
`claimedCount + amount <= maxClaimable` ("Max claimable lands exceeded");
then both counters are raised and the lands minted.  This matches every
claim-path scenario of src/test/BeyondLand.ts. -/
def claimLands (verify : Nat → Nat → List Nat → Bool) (s : LandState)
    (sender amount maxLands : Nat) (signature : List Nat) :
    Except LandError LandState :=
  if s.claimableActive = false then .error .notStarted
  else if verify sender maxLands signature = false then .error .invalidSignature
  else if lookup0 s.claimedOf sender + amount > maxLands then .error .ceilingExceeded
  else if s.claimedCount + amount > s.maxClaimable then .error .claimSupplyExceeded
  else .ok { s with claimedOf := bump s.claimedOf sender amount,
                    claimedCount := s.claimedCount + amount }

/-- Modelled from the spec: `mintLands(amount)` with attached payment.  The
Solidity body is absent from the repository; per the specification (section
4.5) the public path checks the time window `mintStartTime <= now <
mintEndTime` ("Mint not started"), a positive amount (the test demands a
mint of 0 revert), the per-address cap ("Max lands per address exceeded"),
the exact payment `payment = mintPrice * amount` with no overpayment or
underpayment tolerance ("Ether value sent is not correct"), and the public
supply cap ("Max public lands exceeded"); then the counters are raised and
the lands minted.  This matches every public-path scenario of
src/test/BeyondLand.ts. -/
def mintLands (s : LandState) (sender amount payment now : Nat) :
    Except LandError LandState :=
  if ¬ (s.mintStartTime ≤ now ∧ now < s.mintEndTime) then .error .notStarted
  else if amount = 0 then .error .zeroAmount
  else if lookup0 s.publicMintedOf sender + amount > s.maxMintPerAddress then
    .error .perAddressLimitExceeded
  else if ¬ payment = s.mintPrice * amount then .error .incorrectPayment
  else if s.publicMintedCount + amount > s.maxPublic then .error .publicSupplyExceeded
  else .ok { s with publicMintedOf := bump s.publicMintedOf sender amount,
                    publicMintedCount := s.publicMintedCount + amount }

/-- Modelled from the spec: `setSupply(maxClaimable, maxPublic)` is
admin-only and "unrestricted in value (the contract does not forbid lowering
caps below current issuance)" (sections 4.5 and 9); the derived total cap is
`maxTotal = maxClaimable + maxPublic`, recomputed from the live caps. -/
def setSupply (s : LandState) (c p : Nat) : LandState :=
  { s with maxClaimable := c, maxPublic := p }

/-- One external call to the modelled contract: a claim, a public mint, or
one of the admin setters exercised by the test harness. -/
inductive LandReq where
  | claim (sender amount maxLands : Nat) (signature : List Nat)
  | mint (sender amount payment now : Nat)
  | adminSetSupply (c p : Nat)
  | adminSetClaimableActive (b : Bool)
  | adminSetMintTimes (start stop : Nat)
  | adminSetMaxMintPerAddress (n : Nat)
  | adminSetMintPrice (n : Nat)
  deriving DecidableEq, Repr

/-- Dispatch of one call. -/
def landStep (verify : Nat → Nat → List Nat → Bool) (s : LandState) :
    LandReq → Except LandError LandState
  | .claim sender amount maxLands signature => claimLands verify s sender amount maxLands signature
  | .mint sender amount payment now => mintLands s sender amount payment now
  | .adminSetSupply c p => .ok (setSupply s c p)
  | .adminSetClaimableActive b => .ok { s with claimableActive := b }
  | .adminSetMintTimes a b => .ok { s with mintStartTime := a, mintEndTime := b }
  | .adminSetMaxMintPerAddress n => .ok { s with maxMintPerAddress := n }
  | .adminSetMintPrice n => .ok { s with mintPrice := n }

/-- Transactional semantics of an EVM call: a revert rolls the whole call
back, so a failed call leaves the pre-state and reports the revert reason. -/
def landApply (verify : Nat → Nat → List Nat → Bool) (s : LandState) (r : LandReq) :
    LandState × Option LandError :=
  match landStep verify s r with
  | .ok t => (t, none)
  | .error e => (s, some e)

/-- Runs a sequence of calls; reverted ones leave the state unchanged. -/
def landRun (verify : Nat → Nat → List Nat → Bool) (s : LandState)
    (rs : List LandReq) : LandState :=
  rs.foldl (fun t r => (landApply verify t r).1) s

end BL

namespace BL

/-- Every claim request by address `a` in a request presents exactly the
ceiling `c` (other requests unconstrained). -/
def claimFixedCeiling (a c : Nat) : LandReq → Prop
  | .claim sender _ maxLands _ => sender = a → maxLands = c
  | _ => True

/-- Every claim request by address `a` presents a ceiling of at most
`cmax`. -/
def claimCeilingLE (a cmax : Nat) : LandReq → Prop
  | .claim sender _ maxLands _ => sender = a → maxLands ≤ cmax
  | _ => True

/-- Both issuance counters are within their live caps. -/
def pathInv (s : LandState) : Prop :=
  s.claimedCount ≤ s.maxClaimable ∧ s.publicMintedCount ≤ s.maxPublic

/-- A request does not lower a cap below its path's current counter
(only `setSupply` can). -/
def goodCaps (s : LandState) : LandReq → Prop
  | .adminSetSupply c p => s.claimedCount ≤ c ∧ s.publicMintedCount ≤ p
  | _ => True

/-- Along the whole run, no `setSupply` lowers a cap below the counter it
bounds at the moment of the change. -/
def capsRespected (verify : Nat → Nat → List Nat → Bool) :
    LandState → List LandReq → Prop
  | _, [] => True
  | s, r :: rs => goodCaps s r ∧ capsRespected verify ((landApply verify s r).1) rs

end BL

/-! Concrete fixtures used by counterexamples and witnesses.  `envAcc` is an
environment whose verifier accepts everything, `envRej` one whose verifier
rejects everything; `cfgFresh` is a configuration at the live version with no
nonce consumed yet and the loyalty-ticket collection registered; `cfgUsed` is
the same with nonce 7 already consumed. -/

def envAcc : WB.Env :=
  { ed25519Verify := fun _ _ _ => true, keccak256 := fun l => l }

def envRej : WB.Env :=
  { ed25519Verify := fun _ _ _ => false, keccak256 := fun l => l }

def cfgFresh : WB.Config :=
  { version := 2, admin := 0, signer := [1], usedNonces := [],
    collections := [("loyalty_ticket", 11)] }

def cfgUsed : WB.Config :=
  { version := 2, admin := 0, signer := [1], usedNonces := [7],
    collections := [("loyalty_ticket", 11)] }

/-- A box with ten credits, used by witnesses. -/
def boxTen : WB.Box :=
  { id := 100, type := 3, name := "passport", infinity_credits := 10,
    attribute_keys := [], attribute_values := [] }

/-- A verifier for the modelled EVM contract that accepts every signature. -/
def vAcc : Nat → Nat → List Nat → Bool := fun _ _ _ => true

/-- Base state of the modelled EVM contract used by counterexamples and
witnesses: generous caps, claim path active, public window [10, 100),
per-address public cap 5, unit price 2. -/
def landBase : BL.LandState :=
  { maxClaimable := 1000, maxPublic := 1000, claimedCount := 0,
    publicMintedCount := 0, claimedOf := [], publicMintedOf := [],
    claimableActive := true, mintStartTime := 10, mintEndTime := 100,
    maxMintPerAddress := 5, mintPrice := 2 }

/-- Reduction of a failing bind in the `Except` monad. -/
@[simp]
theorem exceptBind_error {ε α β : Type} (e : ε) (f : α → Except ε β) :
    (Except.error e >>= f : Except ε β) = Except.error e := rfl

/-- Reduction of a successful bind in the `Except` monad. -/
@[simp]
theorem exceptBind_ok {ε α β : Type} (a : α) (f : α → Except ε β) :
    (Except.ok a >>= f : Except ε β) = f a := rfl

/-- Inversion of a successful `claim_box`: every check passed and the
returned configuration is the input one with the nonce marked used. -/
theorem claim_box_ok_inv (env : WB.Env) (config cfg1 : WB.Config)
    (box : WB.Box) (nonce type : Nat) (name : String) (credits : Nat)
    (ak av : List String) (sig sender : List Nat) (freshId : Nat)
    (h : WB.claim_box env config nonce type name credits ak av sig sender freshId =
      .ok (cfg1, box)) :
    config.version = WB.VERSION ∧
    nonce ∉ config.usedNonces ∧
    WB.signature_valid env config sig
      (env.keccak256 (sender ++ (WB.bcs_u64 nonce ++ (WB.bcs_u64 type ++
        WB.bcs_u64 credits)))) = true ∧
    cfg1 = { config with usedNonces := nonce :: config.usedNonces } ∧
    box = { id := freshId, type := type, name := name,
            infinity_credits := credits, attribute_keys := ak,
            attribute_values := av } := by
  have hv : config.version = WB.VERSION := by
    by_contra hv
    simp [WB.claim_box, WB.assert_version, hv] at h
  have hn : nonce ∉ config.usedNonces := by
    intro hn
    simp [WB.claim_box, WB.assert_version, WB.assert_nonce, WB.nonce_used,
          hv, hn] at h
  have hs : WB.signature_valid env config sig
      (env.keccak256 (sender ++ (WB.bcs_u64 nonce ++ (WB.bcs_u64 type ++
        WB.bcs_u64 credits)))) = true := by
    cases hs : WB.signature_valid env config sig
        (env.keccak256 (sender ++ (WB.bcs_u64 nonce ++ (WB.bcs_u64 type ++
          WB.bcs_u64 credits))))
    · simp [WB.claim_box, WB.assert_version, WB.assert_nonce, WB.nonce_used,
            WB.assert_signature, hv, hn, hs] at h
    · rfl
  simp [WB.claim_box, WB.assert_version, WB.assert_nonce, WB.nonce_used,
        WB.assert_signature, WB.mark_nonce_used, hv, hn, hs] at h
  refine ⟨hv, hn, hs, ?_, ?_⟩
  · rw [hv]
    exact h.1.symm
  · exact h.2.symm

/-- Inversion of a successful `sync`: every check passed, the nonce is
marked, and the box is credited (within the u64 range). -/
theorem sync_ok_inv (env : WB.Env) (config cfg1 : WB.Config)
    (box box1 : WB.Box) (nonce credits : Nat) (sig sender : List Nat)
    (h : WB.sync env config box nonce credits sig sender = .ok (cfg1, box1)) :
    config.version = WB.VERSION ∧
    nonce ∉ config.usedNonces ∧
    WB.signature_valid env config sig
      (env.keccak256 (sender ++ (WB.bcs_u64 nonce ++ WB.bcs_u64 credits))) = true ∧
    box.infinity_credits + credits < WB.U64MOD ∧
    cfg1 = { config with usedNonces := nonce :: config.usedNonces } ∧
    box1 = { box with infinity_credits := box.infinity_credits + credits } := by
  have hv : config.version = WB.VERSION := by
    by_contra hv
    simp [WB.sync, WB.assert_version, hv] at h
  have hn : nonce ∉ config.usedNonces := by
    intro hn
    simp [WB.sync, WB.assert_version, WB.assert_nonce, WB.nonce_used,
          hv, hn] at h
  have hs : WB.signature_valid env config sig
      (env.keccak256 (sender ++ (WB.bcs_u64 nonce ++ WB.bcs_u64 credits))) = true := by
    cases hs : WB.signature_valid env config sig
        (env.keccak256 (sender ++ (WB.bcs_u64 nonce ++ WB.bcs_u64 credits)))
    · simp [WB.sync, WB.assert_version, WB.assert_nonce, WB.nonce_used,
            WB.assert_signature, hv, hn, hs] at h
    · rfl
  have ho : box.infinity_credits + credits < WB.U64MOD := by
    by_contra ho
    simp [WB.sync, WB.assert_version, WB.assert_nonce, WB.nonce_used,
          WB.assert_signature, WB.mark_nonce_used, WB.u64_add,
          hv, hn, hs, ho] at h
  simp [WB.sync, WB.assert_version, WB.assert_nonce, WB.nonce_used,
        WB.assert_signature, WB.mark_nonce_used, WB.u64_add,
        hv, hn, hs, ho] at h
  refine ⟨hv, hn, hs, ho, ?_, ?_⟩
  · rw [hv]
    exact h.1.symm
  · exact h.2.symm

/-- Inversion of a successful `issue_loyalty_ticket`: every check passed,
the nonce is marked, the box is debited by the issued amount, and the ticket
carries exactly that amount and the box's type. -/
theorem issue_ok_inv (env : WB.Env) (config cfg1 : WB.Config)
    (box box1 : WB.Box) (t : WB.Ticket) (nonce : Nat) (name : String)
    (recipient : List Nat) (issuing : Nat) (ak av : List String)
    (sig sender : List Nat) (freshId : Nat)
    (h : WB.issue_loyalty_ticket env config box nonce name recipient issuing
      ak av sig sender freshId = .ok (cfg1, box1, t)) :
    config.version = WB.VERSION ∧
    nonce ∉ config.usedNonces ∧
    issuing ≤ box.infinity_credits ∧
    (∃ cid, config.collections.find? (fun q => q.1 = "loyalty_ticket") = some cid) ∧
    cfg1 = { config with usedNonces := nonce :: config.usedNonces } ∧
    box1 = { box with infinity_credits := box.infinity_credits - issuing } ∧
    t = { id := freshId, type := box.type, name := name,
          infinity_credits := issuing, attribute_keys := ak,
          attribute_values := av } := by
  have hv : config.version = WB.VERSION := by
    by_contra hv
    simp [WB.issue_loyalty_ticket, WB.assert_version, hv] at h
  have hn : nonce ∉ config.usedNonces := by
    intro hn
    simp [WB.issue_loyalty_ticket, WB.assert_version, WB.assert_nonce,
          WB.nonce_used, hv, hn] at h
  have hc : issuing ≤ box.infinity_credits := by
    by_contra hc
    simp [WB.issue_loyalty_ticket, WB.assert_version, WB.assert_nonce,
          WB.nonce_used, hv, hn, hc] at h
  have hs : WB.signature_valid env config sig
      (env.keccak256 (sender ++ (WB.bcs_u64 nonce ++ (recipient ++
        WB.bcs_u64 issuing)))) = true := by
    cases hs : WB.signature_valid env config sig
        (env.keccak256 (sender ++ (WB.bcs_u64 nonce ++ (recipient ++
          WB.bcs_u64 issuing))))
    · simp [WB.issue_loyalty_ticket, WB.assert_version, WB.assert_nonce,
            WB.nonce_used, WB.assert_signature, hv, hn, hc, hs] at h
    · rfl
  have hfind : ∃ cid,
      config.collections.find? (fun q => q.1 = "loyalty_ticket") = some cid := by
    cases hfind : config.collections.find? (fun q => q.1 = "loyalty_ticket") with
    | none =>
      simp [WB.issue_loyalty_ticket, WB.assert_version, WB.assert_nonce,
            WB.nonce_used, WB.assert_signature, WB.mark_nonce_used,
            WB.collection_id_by_name, hv, hn, hc, hs, hfind] at h
    | some cid => exact ⟨cid, rfl⟩
  obtain ⟨cid, hfind⟩ := hfind
  simp [WB.issue_loyalty_ticket, WB.assert_version, WB.assert_nonce,
        WB.nonce_used, WB.assert_signature, WB.mark_nonce_used,
        WB.collection_id_by_name, hv, hn, hc, hs, hfind] at h
  refine ⟨hv, hn, hc, ⟨cid, hfind⟩, ?_, ?_, ?_⟩
  · rw [hv]
    exact h.1.symm
  · exact h.2.1.symm
  · exact h.2.2.symm

/-- Inversion of a successful `apply_loyalty_ticket`: every check passed,
the nonce is marked, and the box is credited by exactly the ticket's
credits. -/
theorem apply_ok_inv (env : WB.Env) (config cfg2 : WB.Config)
    (box box2 : WB.Box) (ticket : WB.Ticket) (nonce : Nat)
    (sig sender : List Nat)
    (h : WB.apply_loyalty_ticket env config box ticket nonce sig sender =
      .ok (cfg2, box2)) :
    config.version = WB.VERSION ∧
    nonce ∉ config.usedNonces ∧
    box.type = ticket.type ∧
    box.infinity_credits + ticket.infinity_credits < WB.U64MOD ∧
    (∃ cid, config.collections.find? (fun q => q.1 = "loyalty_ticket") = some cid) ∧
    cfg2 = { config with usedNonces := nonce :: config.usedNonces } ∧
    box2 = { box with infinity_credits :=
      box.infinity_credits + ticket.infinity_credits } := by
  have hv : config.version = WB.VERSION := by
    by_contra hv
    simp [WB.apply_loyalty_ticket, WB.assert_version, hv] at h
  have hn : nonce ∉ config.usedNonces := by
    intro hn
    simp [WB.apply_loyalty_ticket, WB.assert_version, WB.assert_nonce,
          WB.nonce_used, hv, hn] at h
  have ht : box.type = ticket.type := by
    by_contra ht
    simp [WB.apply_loyalty_ticket, WB.assert_version, WB.assert_nonce,
          WB.nonce_used, hv, hn, ht] at h
  have hs : WB.signature_valid env config sig
      (env.keccak256 (sender ++ WB.bcs_u64 nonce)) = true := by
    cases hs : WB.signature_valid env config sig
        (env.keccak256 (sender ++ WB.bcs_u64 nonce))
    · simp [WB.apply_loyalty_ticket, WB.assert_version, WB.assert_nonce,
            WB.nonce_used, WB.assert_signature, hv, hn, ht, hs] at h
    · rfl
  have ho : box.infinity_credits + ticket.infinity_credits < WB.U64MOD := by
    by_contra ho
    simp [WB.apply_loyalty_ticket, WB.assert_version, WB.assert_nonce,
          WB.nonce_used, WB.assert_signature, WB.mark_nonce_used, WB.u64_add,
          hv, hn, ht, hs, ho] at h
  have hfind : ∃ cid,
      config.collections.find? (fun q => q.1 = "loyalty_ticket") = some cid := by
    cases hfind : config.collections.find? (fun q => q.1 = "loyalty_ticket") with
    | none =>
      simp [WB.apply_loyalty_ticket, WB.assert_version, WB.assert_nonce,
            WB.nonce_used, WB.assert_signature, WB.mark_nonce_used, WB.u64_add,
            WB.collection_id_by_name, hv, hn, ht, hs, ho, hfind] at h
    | some cid => exact ⟨cid, rfl⟩
  obtain ⟨cid, hfind⟩ := hfind
  simp [WB.apply_loyalty_ticket, WB.assert_version, WB.assert_nonce,
        WB.nonce_used, WB.assert_signature, WB.mark_nonce_used, WB.u64_add,
        WB.collection_id_by_name, hv, hn, ht, hs, ho, hfind] at h
  refine ⟨hv, hn, ht, ho, ⟨cid, hfind⟩, ?_, ?_⟩
  · rw [hv]
    exact h.1.symm
  · rw [ht]
    exact h.2.symm

/-- C8: the signature verifier is total — it only ever yields a boolean
(it delegates to the total verifier, never aborting on malformed signature
bytes of any length), and only the caller `assert_signature` maps `false` to
the hard `EInvalidSignature` failure and `true` to success. -/
theorem claim8_verifier_total (env : WB.Env) (config : WB.Config)
    (signature hashedMsg : List Nat) :
    WB.signature_valid env config signature hashedMsg =
      env.ed25519Verify signature config.signer hashedMsg ∧
    (WB.assert_signature env config signature hashedMsg =
        .error .eInvalidSignature ↔
      WB.signature_valid env config signature hashedMsg = false) ∧
    (WB.assert_signature env config signature hashedMsg = .ok () ↔
      WB.signature_valid env config signature hashedMsg = true) := by
  refine ⟨rfl, ?_, ?_⟩ <;>
    cases hb : WB.signature_valid env config signature hashedMsg <;>
      simp [WB.assert_signature, hb]

/-- C9: every loyalty entry operation aborts with `EWrongVersion` whenever
the configuration version differs from the module constant VERSION = 2,
whatever the other arguments are (so before any signature, nonce, or state
check can matter), and an abort produces no successor state. -/
theorem claim9_version_gate (env : WB.Env) (config : WB.Config)
    (h : config.version ≠ WB.VERSION) :
    (∀ nonce type name credits ak av sig sender freshId,
      WB.claim_box env config nonce type name credits ak av sig sender freshId =
        .error .eWrongVersion) ∧
    (∀ box nonce credits sig sender,
      WB.sync env config box nonce credits sig sender = .error .eWrongVersion) ∧
    (∀ box nonce name recipient issuing ak av sig sender freshId,
      WB.issue_loyalty_ticket env config box nonce name recipient issuing
        ak av sig sender freshId = .error .eWrongVersion) ∧
    (∀ box ticket nonce sig sender,
      WB.apply_loyalty_ticket env config box ticket nonce sig sender =
        .error .eWrongVersion) := by
  refine ⟨?_, ?_, ?_, ?_⟩ <;> intros <;>
    simp [WB.claim_box, WB.sync, WB.issue_loyalty_ticket,
          WB.apply_loyalty_ticket, WB.assert_version, h]

/-- Witness for C9 at a concrete stale configuration (version 1). -/
theorem claim9_witness :
    ({ cfgFresh with version := 1 } : WB.Config).version ≠ WB.VERSION ∧
    WB.claim_box envAcc { cfgFresh with version := 1 } 7 3 "b" 5 [] [] [] [0] 0 =
      .error .eWrongVersion :=
  ⟨by decide,
   (claim9_version_gate envAcc { cfgFresh with version := 1 } (by decide)).1
     7 3 "b" 5 [] [] [] [0] 0⟩

/-- C2 (counterexample): the orchestrator does NOT check the signature
before the nonce.  With nonce 7 already consumed and a verifier that rejects
everything, `claim_box` presenting nonce 7 with an invalid signature is
rejected with `ENonceAlreadyUsed` by the replay check, not with
`EInvalidSignature` by the signature check — `assert_nonce` runs before
`assert_signature` in all four loyalty entry functions. -/
theorem claim2_counterexample :
    WB.nonce_used cfgUsed 7 = true ∧
    WB.signature_valid envRej cfgUsed []
      (envRej.keccak256 ([0] ++ (WB.bcs_u64 7 ++ (WB.bcs_u64 3 ++ WB.bcs_u64 5)))) =
      false ∧
    WB.claim_box envRej cfgUsed 7 3 "b" 5 [] [] [] [0] 0 =
      .error .eNonceAlreadyUsed ∧
    WB.claim_box envRej cfgUsed 7 3 "b" 5 [] [] [] [0] 0 ≠
      .error .eInvalidSignature := by
  refine ⟨rfl, rfl, rfl, ?_⟩
  intro hcontra
  have h2 : (Except.error WB.MoveAbort.eNonceAlreadyUsed :
      Except WB.MoveAbort (WB.Config × WB.Box)) = .error .eInvalidSignature := hcontra
  simp at h2

/-- C2 (amended): for the loyalty claim path the checks run in the strict
order version gate (`EWrongVersion`), then replay/nonce check
(`ENonceAlreadyUsed`), then signature verification (`EInvalidSignature`);
the sequence short-circuits on first failure and a failure produces no
successor state — in particular a request with both an invalid signature and
an already-used nonce is rejected by the replay check (the nonce conjunct
holds for every signature argument). -/
theorem claim2_amended_check_order (env : WB.Env) (config : WB.Config)
    (nonce : Nat) :
    (∀ type name credits ak av sig sender freshId,
      (config.version ≠ WB.VERSION →
        WB.claim_box env config nonce type name credits ak av sig sender freshId =
          .error .eWrongVersion) ∧
      (config.version = WB.VERSION → nonce ∈ config.usedNonces →
        WB.claim_box env config nonce type name credits ak av sig sender freshId =
          .error .eNonceAlreadyUsed) ∧
      (config.version = WB.VERSION → nonce ∉ config.usedNonces →
        WB.signature_valid env config sig
          (env.keccak256 (sender ++ (WB.bcs_u64 nonce ++ (WB.bcs_u64 type ++
            WB.bcs_u64 credits)))) = false →
        WB.claim_box env config nonce type name credits ak av sig sender freshId =
          .error .eInvalidSignature)) ∧
    (∀ box credits sig sender,
      (config.version ≠ WB.VERSION →
        WB.sync env config box nonce credits sig sender = .error .eWrongVersion) ∧
      (config.version = WB.VERSION → nonce ∈ config.usedNonces →
        WB.sync env config box nonce credits sig sender =
          .error .eNonceAlreadyUsed) ∧
      (config.version = WB.VERSION → nonce ∉ config.usedNonces →
        WB.signature_valid env config sig
          (env.keccak256 (sender ++ (WB.bcs_u64 nonce ++ WB.bcs_u64 credits))) =
          false →
        WB.sync env config box nonce credits sig sender =
          .error .eInvalidSignature)) := by
  constructor
  · intro type name credits ak av sig sender freshId
    refine ⟨fun hv => ?_, fun hv hn => ?_, fun hv hn hs => ?_⟩
    · simp [WB.claim_box, WB.assert_version, hv]
    · simp [WB.claim_box, WB.assert_version, WB.assert_nonce, WB.nonce_used,
            hv, hn]
    · simp [WB.claim_box, WB.assert_version, WB.assert_nonce, WB.nonce_used,
            WB.assert_signature, hv, hn, hs]
  · intro box credits sig sender
    refine ⟨fun hv => ?_, fun hv hn => ?_, fun hv hn hs => ?_⟩
    · simp [WB.sync, WB.assert_version, hv]
    · simp [WB.sync, WB.assert_version, WB.assert_nonce, WB.nonce_used, hv, hn]
    · simp [WB.sync, WB.assert_version, WB.assert_nonce, WB.nonce_used,
            WB.assert_signature, hv, hn, hs]

/-- Witness for the amended C2 at concrete inputs: a used nonce beats an
invalid signature; a fresh nonce with an invalid signature is rejected by
the signature check. -/
theorem claim2_witness :
    WB.claim_box envRej cfgUsed 7 3 "b" 5 [] [] [] [0] 0 =
      .error .eNonceAlreadyUsed ∧
    WB.claim_box envRej cfgFresh 7 3 "b" 5 [] [] [] [0] 0 =
      .error .eInvalidSignature :=
  ⟨((claim2_amended_check_order envRej cfgUsed 7).1 3 "b" 5 [] [] [] [0] 0).2.1
      rfl (by decide),
   ((claim2_amended_check_order envRej cfgFresh 7).1 3 "b" 5 [] [] [] [0] 0).2.2
      rfl (by decide) rfl⟩

/-- C10: loyalty credits are conserved across tickets.  A successful
`issue_loyalty_ticket` of amount `a` from a box with `c` credits requires
`a ≤ c`, leaves the box with `c - a` credits, and mints a ticket carrying
exactly `a` credits and the box's type; a successful `apply_loyalty_ticket`
adds exactly the ticket's credits to the box; and applying the freshly
issued ticket back to the same box (fresh nonce, valid signature) succeeds
and restores the original balance `c`. -/
theorem claim10_credit_conservation (env : WB.Env) (config cfg1 : WB.Config)
    (box box1 : WB.Box) (t : WB.Ticket) (nonce : Nat) (name : String)
    (recipient : List Nat) (issuing : Nat) (ak av : List String)
    (sig sender : List Nat) (freshId : Nat)
    (hwf : box.infinity_credits < WB.U64MOD)
    (hIssue : WB.issue_loyalty_ticket env config box nonce name recipient issuing
      ak av sig sender freshId = .ok (cfg1, box1, t)) :
    issuing ≤ box.infinity_credits ∧
    box1.infinity_credits = box.infinity_credits - issuing ∧
    t.infinity_credits = issuing ∧
    t.type = box.type ∧
    (∀ (cfg : WB.Config) (b b2 : WB.Box) (tk : WB.Ticket) (n2 : Nat)
        (sig2 sender2 : List Nat) (cfg2 : WB.Config),
      WB.apply_loyalty_ticket env cfg b tk n2 sig2 sender2 = .ok (cfg2, b2) →
      b2.infinity_credits = b.infinity_credits + tk.infinity_credits) ∧
    (∀ n2 sig2 sender2,
      n2 ∉ cfg1.usedNonces →
      WB.signature_valid env cfg1 sig2
        (env.keccak256 (sender2 ++ WB.bcs_u64 n2)) = true →
      WB.apply_loyalty_ticket env cfg1 box1 t n2 sig2 sender2 =
        .ok ({ cfg1 with usedNonces := n2 :: cfg1.usedNonces },
             { box1 with infinity_credits := box.infinity_credits })) := by
  obtain ⟨hv, hn, hc, ⟨cid, hfind⟩, hcfg1, hbox1, ht⟩ :=
    issue_ok_inv _ _ _ _ _ _ _ _ _ _ _ _ _ _ _ hIssue
  refine ⟨hc, by rw [hbox1], by rw [ht], by rw [ht], ?_, ?_⟩
  · intro cfg b b2 tk n2 sig2 sender2 cfg2 hap
    obtain ⟨_, _, _, _, _, _, hb2⟩ := apply_ok_inv _ _ _ _ _ _ _ _ _ hap
    rw [hb2]
  · intro n2 sig2 sender2 hn2 hsig2
    subst hcfg1
    subst hbox1
    subst ht
    rw [hv] at hsig2
    simp [WB.apply_loyalty_ticket, WB.assert_version, WB.assert_nonce,
          WB.nonce_used, WB.assert_signature, WB.mark_nonce_used, WB.u64_add,
          WB.collection_id_by_name, hv, hn2, hsig2, hfind,
          Nat.sub_add_cancel hc, hwf]

/-- Witness for C10: issuing 4 of the box's 10 credits and applying the
ticket back restores the 10 credits. -/
theorem claim10_witness :
    WB.issue_loyalty_ticket envAcc cfgFresh boxTen 1 "tkt" [9] 4 [] [] [] [0] 200 =
      .ok ({ cfgFresh with usedNonces := [1] },
           { boxTen with infinity_credits := 6 },
           { id := 200, type := 3, name := "tkt", infinity_credits := 4,
             attribute_keys := [], attribute_values := [] }) ∧
    WB.apply_loyalty_ticket envAcc { cfgFresh with usedNonces := [1] }
        { boxTen with infinity_credits := 6 }
        { id := 200, type := 3, name := "tkt", infinity_credits := 4,
          attribute_keys := [], attribute_values := [] } 2 [] [0] =
      .ok ({ cfgFresh with usedNonces := [2, 1] },
           { boxTen with infinity_credits := 10 }) := by
  refine ⟨rfl, ?_⟩
  have h := claim10_credit_conservation envAcc cfgFresh
    { cfgFresh with usedNonces := [1] } boxTen
    { boxTen with infinity_credits := 6 }
    { id := 200, type := 3, name := "tkt", infinity_credits := 4,
      attribute_keys := [], attribute_values := [] }
    1 "tkt" [9] 4 [] [] [] [0] 200 (by decide) rfl
  exact h.2.2.2.2.2 2 [] [0] (by decide) rfl

/-- C4: all-or-nothing semantics — any operation on which a check fails
leaves the whole state unchanged, for the loyalty transaction semantics and
for the modelled EVM contract alike. -/
theorem claim4_failure_leaves_state :
    (∀ (env : WB.Env) (s : WB.LState) (r : WB.Req) (e : WB.MoveAbort),
      (WB.applyReq env s r).2 = some e → (WB.applyReq env s r).1 = s) ∧
    (∀ (verify : Nat → Nat → List Nat → Bool) (s : BL.LandState)
        (r : BL.LandReq) (e : BL.LandError),
      (BL.landApply verify s r).2 = some e → (BL.landApply verify s r).1 = s) := by
  constructor
  · intro env s r e h
    cases hs : WB.step env s r <;> simp [WB.applyReq, hs] at h ⊢
  · intro verify s r e h
    cases hs : BL.landStep verify s r <;> simp [BL.landApply, hs] at h ⊢

/-- Witness for C4: a claim with an already-used nonce fails and leaves the
loyalty state unchanged. -/
theorem claim4_witness :
    (WB.applyReq envAcc ⟨cfgUsed, [], []⟩
        (.claimBoxReq 7 3 "b" 5 [] [] [] [0] 0)).2 = some .eNonceAlreadyUsed ∧
    (WB.applyReq envAcc ⟨cfgUsed, [], []⟩
        (.claimBoxReq 7 3 "b" 5 [] [] [] [0] 0)).1 = ⟨cfgUsed, [], []⟩ :=
  ⟨rfl,
   claim4_failure_leaves_state.1 envAcc ⟨cfgUsed, [], []⟩
     (.claimBoxReq 7 3 "b" 5 [] [] [] [0] 0) .eNonceAlreadyUsed rfl⟩

/-- C7: exact-payment rule of the public path — with the time window open,
a positive amount and unit price, and the per-address and supply caps
satisfied, a mint of `amount` units succeeds exactly on payment
`mintPrice * amount`, while underpayment by one and overpayment by one are
both rejected with `IncorrectPayment`. -/
theorem claim7_exact_payment (s : BL.LandState) (sender amount now : Nat)
    (htime : s.mintStartTime ≤ now ∧ now < s.mintEndTime)
    (hamt : 0 < amount) (hprice : 0 < s.mintPrice)
    (haddr : BL.lookup0 s.publicMintedOf sender + amount ≤ s.maxMintPerAddress)
    (hsupply : s.publicMintedCount + amount ≤ s.maxPublic) :
    (∀ payment t, BL.mintLands s sender amount payment now = .ok t →
      payment = s.mintPrice * amount) ∧
    (∃ t, BL.mintLands s sender amount (s.mintPrice * amount) now = .ok t) ∧
    BL.mintLands s sender amount (s.mintPrice * amount - 1) now =
      .error .incorrectPayment ∧
    BL.mintLands s sender amount (s.mintPrice * amount + 1) now =
      .error .incorrectPayment := by
  have hpos : 1 ≤ s.mintPrice * amount := Nat.one_le_iff_ne_zero.mpr
    (Nat.mul_ne_zero (Nat.pos_iff_ne_zero.mp hprice) (Nat.pos_iff_ne_zero.mp hamt))
  refine ⟨?_, ?_, ?_, ?_⟩
  · intro payment t h
    by_cases hp : payment = s.mintPrice * amount
    · exact hp
    · simp [BL.mintLands, htime, Nat.pos_iff_ne_zero.mp hamt,
            Nat.not_lt.mpr haddr, hp] at h
  · cases hres : BL.mintLands s sender amount (s.mintPrice * amount) now with
    | ok t => exact ⟨t, rfl⟩
    | error e =>
      revert hres
      simp [BL.mintLands, htime, Nat.pos_iff_ne_zero.mp hamt,
            Nat.not_lt.mpr haddr, Nat.not_lt.mpr hsupply]
  · have hne : s.mintPrice * amount - 1 ≠ s.mintPrice * amount := by omega
    simp [BL.mintLands, htime, Nat.pos_iff_ne_zero.mp hamt,
          Nat.not_lt.mpr haddr, hne]
  · have hne : s.mintPrice * amount + 1 ≠ s.mintPrice * amount := by omega
    simp [BL.mintLands, htime, Nat.pos_iff_ne_zero.mp hamt,
          Nat.not_lt.mpr haddr, hne]

/-- Witness for C7: minting 3 units at unit price 2 from the base state at
time 50 succeeds on payment 6 and is rejected on payments 5 and 7. -/
theorem claim7_witness :
    (∃ t, BL.mintLands landBase 1 3 6 50 = .ok t) ∧
    BL.mintLands landBase 1 3 5 50 = .error .incorrectPayment ∧
    BL.mintLands landBase 1 3 7 50 = .error .incorrectPayment := by
  have h := claim7_exact_payment landBase 1 3 50 (by decide) (by decide)
    (by decide) (by decide) (by decide)
  exact ⟨h.2.1, h.2.2.1, h.2.2.2⟩

/-- Unfolding one request of a land run. -/
theorem landRun_cons (verify : Nat → Nat → List Nat → Bool) (s : BL.LandState)
    (r : BL.LandReq) (rs : List BL.LandReq) :
    BL.landRun verify s (r :: rs) =
      BL.landRun verify ((BL.landApply verify s r).1) rs := rfl

/-- Bumping one address's counter leaves every other address's lookup
unchanged and raises that address's lookup by the bumped amount. -/
theorem lookup0_bump (m : List (Nat × Nat)) (b v a : Nat) :
    BL.lookup0 (BL.bump m b v) a =
      if a = b then BL.lookup0 m a + v else BL.lookup0 m a := by
  by_cases h : a = b
  · subst h
    simp [BL.bump, BL.lookup0]
  · have hfind : List.find? (fun x : Nat × Nat =>
        !decide (x.1 = b) && decide (x.1 = a)) m =
        List.find? (fun p : Nat × Nat => decide (p.1 = a)) m := by
      induction m with
      | nil => rfl
      | cons p m ih =>
        by_cases hx : p.1 = a
        · have hxb : ¬ p.1 = b := fun hxb => h (hx.symm.trans hxb)
          simp [List.find?_cons, hx, hxb, h]
        · simp [List.find?_cons, hx, ih]
    simp [BL.bump, BL.lookup0, h, Ne.symm h, hfind]

/-- Inversion of a successful `claimLands`: every check passed and the
state is the input one with the sender's ledger and the claim counter
raised. -/
theorem claimLands_ok_inv (verify : Nat → Nat → List Nat → Bool)
    (s t : BL.LandState) (sender amount maxLands : Nat) (sig : List Nat)
    (h : BL.claimLands verify s sender amount maxLands sig = .ok t) :
    s.claimableActive = true ∧
    verify sender maxLands sig = true ∧
    BL.lookup0 s.claimedOf sender + amount ≤ maxLands ∧
    s.claimedCount + amount ≤ s.maxClaimable ∧
    t = { s with claimedOf := BL.bump s.claimedOf sender amount,
                 claimedCount := s.claimedCount + amount } := by
  have hact : s.claimableActive = true := by
    cases hact : s.claimableActive
    · simp [BL.claimLands, hact] at h
    · rfl
  have hver : verify sender maxLands sig = true := by
    cases hver : verify sender maxLands sig
    · simp [BL.claimLands, hact, hver] at h
    · rfl
  have hceil : BL.lookup0 s.claimedOf sender + amount ≤ maxLands := by
    by_contra hceil
    simp [BL.claimLands, hact, hver, Nat.lt_of_not_le hceil] at h
  have hsup : s.claimedCount + amount ≤ s.maxClaimable := by
    by_contra hsup
    simp [BL.claimLands, hact, hver, Nat.not_lt.mpr hceil,
          Nat.lt_of_not_le hsup] at h
  simp [BL.claimLands, hact, hver, Nat.not_lt.mpr hceil,
        Nat.not_lt.mpr hsup] at h
  refine ⟨hact, hver, hceil, hsup, ?_⟩
  rw [hact]
  exact h.symm

/-- Inversion of a successful `mintLands`: every check passed and the state
is the input one with the sender's public ledger and the public counter
raised. -/
theorem mintLands_ok_inv (s t : BL.LandState) (sender amount payment now : Nat)
    (h : BL.mintLands s sender amount payment now = .ok t) :
    (s.mintStartTime ≤ now ∧ now < s.mintEndTime) ∧
    amount ≠ 0 ∧
    BL.lookup0 s.publicMintedOf sender + amount ≤ s.maxMintPerAddress ∧
    payment = s.mintPrice * amount ∧
    s.publicMintedCount + amount ≤ s.maxPublic ∧
    t = { s with publicMintedOf := BL.bump s.publicMintedOf sender amount,
                 publicMintedCount := s.publicMintedCount + amount } := by
  have htime : s.mintStartTime ≤ now ∧ now < s.mintEndTime := by
    by_contra htime
    simp [BL.mintLands, htime] at h
  have hamt : amount ≠ 0 := by
    intro hamt
    simp [BL.mintLands, htime, hamt] at h
  have haddr : BL.lookup0 s.publicMintedOf sender + amount ≤ s.maxMintPerAddress := by
    by_contra haddr
    simp [BL.mintLands, htime, hamt, Nat.lt_of_not_le haddr] at h
  have hpay : payment = s.mintPrice * amount := by
    by_contra hpay
    simp [BL.mintLands, htime, hamt, Nat.not_lt.mpr haddr, hpay] at h
  have hsup : s.publicMintedCount + amount ≤ s.maxPublic := by
    by_contra hsup
    simp [BL.mintLands, htime, hamt, Nat.not_lt.mpr haddr, hpay,
          Nat.lt_of_not_le hsup] at h
  simp [BL.mintLands, htime, hamt, Nat.not_lt.mpr haddr, hpay,
        Nat.not_lt.mpr hsup] at h
  exact ⟨htime, hamt, haddr, hpay, hsup, h.symm⟩

/-- One request preserves an upper bound on an address's claim-path ledger,
provided every claim by that address presents a ceiling of at most the
bound. -/
theorem claimedOf_le_apply (verify : Nat → Nat → List Nat → Bool)
    (a cmax : Nat) (s : BL.LandState) (r : BL.LandReq)
    (hinv : BL.lookup0 s.claimedOf a ≤ cmax) (hr : BL.claimCeilingLE a cmax r) :
    BL.lookup0 ((BL.landApply verify s r).1).claimedOf a ≤ cmax := by
  cases r with
  | claim sender amount maxLands sig =>
    cases hres : BL.claimLands verify s sender amount maxLands sig with
    | error e => simpa [BL.landApply, BL.landStep, hres] using hinv
    | ok t =>
      obtain ⟨hact, hver, hceil, hsup, ht⟩ :=
        claimLands_ok_inv verify s t sender amount maxLands sig hres
      subst ht
      simp only [BL.landApply, BL.landStep, hres]
      simp only [lookup0_bump]
      by_cases hsend : a = sender
      · have hle : maxLands ≤ cmax := hr hsend.symm
        rw [if_pos hsend]
        rw [← hsend] at hceil
        omega
      · rw [if_neg hsend]
        exact hinv
  | mint sender amount payment now =>
    cases hres : BL.mintLands s sender amount payment now with
    | error e => simpa [BL.landApply, BL.landStep, hres] using hinv
    | ok t =>
      obtain ⟨_, _, _, _, _, ht⟩ :=
        mintLands_ok_inv s t sender amount payment now hres
      subst ht
      simpa [BL.landApply, BL.landStep, hres] using hinv
  | adminSetSupply c p => simpa [BL.landApply, BL.landStep, BL.setSupply] using hinv
  | adminSetClaimableActive b => simpa [BL.landApply, BL.landStep] using hinv
  | adminSetMintTimes x y => simpa [BL.landApply, BL.landStep] using hinv
  | adminSetMaxMintPerAddress n => simpa [BL.landApply, BL.landStep] using hinv
  | adminSetMintPrice n => simpa [BL.landApply, BL.landStep] using hinv

/-- A whole run preserves an upper bound on an address's claim-path ledger,
provided every claim by that address presents a ceiling of at most the
bound. -/
theorem claimedOf_le_run (verify : Nat → Nat → List Nat → Bool)
    (a cmax : Nat) (s : BL.LandState) (rs : List BL.LandReq)
    (hinv : BL.lookup0 s.claimedOf a ≤ cmax)
    (hrs : ∀ r ∈ rs, BL.claimCeilingLE a cmax r) :
    BL.lookup0 (BL.landRun verify s rs).claimedOf a ≤ cmax := by
  induction rs generalizing s with
  | nil => simpa [BL.landRun] using hinv
  | cons r rs ih =>
    rw [landRun_cons]
    exact ih _ (claimedOf_le_apply verify a cmax s r hinv (hrs r (by simp)))
      (fun r2 hr2 => hrs r2 (by simp [hr2]))

/-- One request preserves the per-path cap invariant, provided a `setSupply`
does not lower a cap below its counter. -/
theorem pathInv_apply (verify : Nat → Nat → List Nat → Bool)
    (s : BL.LandState) (r : BL.LandReq)
    (hinv : BL.pathInv s) (hr : BL.goodCaps s r) :
    BL.pathInv ((BL.landApply verify s r).1) := by
  cases r with
  | claim sender amount maxLands sig =>
    cases hres : BL.claimLands verify s sender amount maxLands sig with
    | error e => simpa [BL.landApply, BL.landStep, hres] using hinv
    | ok t =>
      obtain ⟨_, _, _, hsup, ht⟩ :=
        claimLands_ok_inv verify s t sender amount maxLands sig hres
      subst ht
      simp only [BL.landApply, BL.landStep, hres]
      exact ⟨hsup, hinv.2⟩
  | mint sender amount payment now =>
    cases hres : BL.mintLands s sender amount payment now with
    | error e => simpa [BL.landApply, BL.landStep, hres] using hinv
    | ok t =>
      obtain ⟨_, _, _, _, hsup, ht⟩ :=
        mintLands_ok_inv s t sender amount payment now hres
      subst ht
      simp only [BL.landApply, BL.landStep, hres]
      exact ⟨hinv.1, hsup⟩
  | adminSetSupply c p =>
    simp only [BL.landApply, BL.landStep, BL.setSupply]
    exact ⟨hr.1, hr.2⟩
  | adminSetClaimableActive b => exact hinv
  | adminSetMintTimes x y => exact hinv
  | adminSetMaxMintPerAddress n => exact hinv
  | adminSetMintPrice n => exact hinv

/-- A whole cap-respecting run preserves the per-path cap invariant. -/
theorem pathInv_run (verify : Nat → Nat → List Nat → Bool)
    (s : BL.LandState) (rs : List BL.LandReq)
    (hinv : BL.pathInv s) (hcaps : BL.capsRespected verify s rs) :
    BL.pathInv (BL.landRun verify s rs) := by
  induction rs generalizing s with
  | nil => simpa [BL.landRun] using hinv
  | cons r rs ih =>
    rw [landRun_cons]
    exact ih _ (pathInv_apply verify s r hinv hcaps.1) hcaps.2

/-- C5 (counterexample): the supply invariant does not survive arbitrary
admin cap changes.  From the base state, one successful public mint followed
by `setSupply(0, 0)` — which the contract accepts, caps being unrestricted —
leaves `claimedCount + publicMintedCount = 1 > 0 = maxTotal`. -/
theorem claim5_counterexample :
    (BL.landRun vAcc landBase [.mint 1 1 2 50]).publicMintedCount = 1 ∧
    (BL.landRun vAcc landBase [.mint 1 1 2 50, .adminSetSupply 0 0]).claimedCount +
      (BL.landRun vAcc landBase [.mint 1 1 2 50, .adminSetSupply 0 0]).publicMintedCount >
      (BL.landRun vAcc landBase [.mint 1 1 2 50, .adminSetSupply 0 0]).maxClaimable +
      (BL.landRun vAcc landBase [.mint 1 1 2 50, .adminSetSupply 0 0]).maxPublic := by
  decide

/-- C5 (amended): after every operation of a run in which each `setSupply`
keeps `maxClaimable ≥ claimedCount` and `maxPublic ≥ publicMintedCount` at
the time of the change, the invariant
`claimedCount + publicMintedCount ≤ maxTotal` holds, with
`maxTotal = maxClaimable + maxPublic` recomputed from the live caps; a
`setSupply` lowering a cap below current issuance can break it. -/
theorem claim5_amended_supply_invariant (verify : Nat → Nat → List Nat → Bool)
    (s : BL.LandState) (rs : List BL.LandReq)
    (hclaim : s.claimedCount ≤ s.maxClaimable)
    (hpublic : s.publicMintedCount ≤ s.maxPublic)
    (hcaps : BL.capsRespected verify s rs) :
    (BL.landRun verify s rs).claimedCount +
        (BL.landRun verify s rs).publicMintedCount ≤
      (BL.landRun verify s rs).maxClaimable +
        (BL.landRun verify s rs).maxPublic := by
  have h := pathInv_run verify s rs ⟨hclaim, hpublic⟩ hcaps
  exact Nat.add_le_add h.1 h.2

/-- Witness for the amended C5: one mint and one cap-respecting `setSupply`
from the base state keep the invariant. -/
theorem claim5_witness :
    (BL.landRun vAcc landBase [.mint 1 1 2 50, .adminSetSupply 500 500]).claimedCount +
        (BL.landRun vAcc landBase [.mint 1 1 2 50, .adminSetSupply 500 500]).publicMintedCount ≤
      (BL.landRun vAcc landBase [.mint 1 1 2 50, .adminSetSupply 500 500]).maxClaimable +
        (BL.landRun vAcc landBase [.mint 1 1 2 50, .adminSetSupply 500 500]).maxPublic :=
  claim5_amended_supply_invariant vAcc landBase
    [.mint 1 1 2 50, .adminSetSupply 500 500]
    (by decide) (by decide) ⟨trivial, ⟨by decide, by decide⟩, trivial⟩

/-- C6: against a fixed signed ceiling `c`, the cumulative amount address
`a` ever successfully claims never exceeds `c` over any run in which every
claim by `a` presents ceiling `c`; and a claim whose amount would push the
sum over `c` (with the claim gate open and a valid signature) is rejected
with `CeilingExceeded` while the whole state is preserved. -/
theorem claim6_fixed_ceiling (verify : Nat → Nat → List Nat → Bool)
    (a c : Nat) :
    (∀ (s : BL.LandState) (rs : List BL.LandReq),
      BL.lookup0 s.claimedOf a = 0 →
      (∀ r ∈ rs, BL.claimFixedCeiling a c r) →
      BL.lookup0 (BL.landRun verify s rs).claimedOf a ≤ c) ∧
    (∀ (s : BL.LandState) (amount : Nat) (sig : List Nat),
      s.claimableActive = true →
      verify a c sig = true →
      c < BL.lookup0 s.claimedOf a + amount →
      BL.claimLands verify s a amount c sig = .error .ceilingExceeded ∧
      BL.landApply verify s (.claim a amount c sig) =
        (s, some .ceilingExceeded)) := by
  constructor
  · intro s rs hzero hrs
    refine claimedOf_le_run verify a c s rs (by omega) ?_
    intro r hr
    have := hrs r hr
    cases r with
    | claim sender amount maxLands sig =>
      intro hsend
      exact Nat.le_of_eq (this hsend)
    | mint sender amount payment now => trivial
    | adminSetSupply x y => trivial
    | adminSetClaimableActive b => trivial
    | adminSetMintTimes x y => trivial
    | adminSetMaxMintPerAddress n => trivial
    | adminSetMintPrice n => trivial
  · intro s amount sig hact hver hover
    have h1 : BL.claimLands verify s a amount c sig = .error .ceilingExceeded := by
      simp [BL.claimLands, hact, hver, hover]
    exact ⟨h1, by simp [BL.landApply, BL.landStep, h1]⟩

/-- Witness for C6: the specification's own scenario — ceiling 4, claims of
1 and 1 honored, a further 3 rejected with `CeilingExceeded` and state kept,
then 2 honored for a total of exactly 4. -/
theorem claim6_witness :
    BL.lookup0 (BL.landRun vAcc landBase
      [.claim 8 1 4 [], .claim 8 1 4 [], .claim 8 3 4 [], .claim 8 2 4 []]).claimedOf 8 ≤ 4 ∧
    BL.landApply vAcc (BL.landRun vAcc landBase [.claim 8 1 4 [], .claim 8 1 4 []])
        (.claim 8 3 4 []) =
      (BL.landRun vAcc landBase [.claim 8 1 4 [], .claim 8 1 4 []],
       some .ceilingExceeded) := by
  constructor
  · refine (claim6_fixed_ceiling vAcc 8 4).1 landBase
      [.claim 8 1 4 [], .claim 8 1 4 [], .claim 8 3 4 [], .claim 8 2 4 []]
      (by decide) ?_
    intro r hr
    fin_cases hr <;> exact fun _ => rfl
  · exact ((claim6_fixed_ceiling vAcc 8 4).2
      (BL.landRun vAcc landBase [.claim 8 1 4 [], .claim 8 1 4 []]) 3 []
      (by decide) rfl (by decide)).2

/-- C3 (counterexample): mirroring src/test/BeyondLand.ts lines 327-353,
address 5 claims 1 against ceiling 1 (honored), is rejected asking 3 against
a newer ceiling 3, then successfully claims 2 against ceiling 3 — so its
cumulative successful claims reach 3, exceeding the strictest (smallest)
ceiling 1 it ever presented in an honored proof: a newer, larger signed
ceiling does relax the previously presented one. -/
theorem claim3_counterexample :
    (BL.landApply vAcc landBase (.claim 5 1 1 [])).2 = none ∧
    (BL.landApply vAcc (BL.landRun vAcc landBase [.claim 5 1 1 []])
      (.claim 5 3 3 [])).2 = some .ceilingExceeded ∧
    (BL.landApply vAcc (BL.landRun vAcc landBase [.claim 5 1 1 [], .claim 5 3 3 []])
      (.claim 5 2 3 [])).2 = none ∧
    BL.lookup0 (BL.landRun vAcc landBase
      [.claim 5 1 1 [], .claim 5 3 3 [], .claim 5 2 3 []]).claimedOf 5 = 3 ∧
    ¬ BL.lookup0 (BL.landRun vAcc landBase
      [.claim 5 1 1 [], .claim 5 3 3 [], .claim 5 2 3 []]).claimedOf 5 ≤ 1 := by
  decide

/-- C3 (amended): the cumulative amount an address ever successfully claims
never exceeds the largest signed ceiling it presented across the run
(every presented ceiling being at most `cmax`); and a request presenting a
ceiling smaller than the address's already-consumed allocation is always
rejected with `CeilingExceeded` — a newer smaller ceiling never authorizes
claims beyond itself, though a newer larger ceiling does raise the bound. -/
theorem claim3_amended_ceiling (verify : Nat → Nat → List Nat → Bool)
    (a cmax : Nat) :
    (∀ (s : BL.LandState) (rs : List BL.LandReq),
      BL.lookup0 s.claimedOf a = 0 →
      (∀ r ∈ rs, BL.claimCeilingLE a cmax r) →
      BL.lookup0 (BL.landRun verify s rs).claimedOf a ≤ cmax) ∧
    (∀ (s : BL.LandState) (amount maxLands : Nat) (sig : List Nat),
      s.claimableActive = true →
      verify a maxLands sig = true →
      maxLands < BL.lookup0 s.claimedOf a →
      BL.claimLands verify s a amount maxLands sig =
        .error .ceilingExceeded) := by
  constructor
  · intro s rs hzero hrs
    exact claimedOf_le_run verify a cmax s rs (by omega) hrs
  · intro s amount maxLands sig hact hver hsmall
    have hover : maxLands < BL.lookup0 s.claimedOf a + amount := by omega
    simp [BL.claimLands, hact, hver, hover]

/-- Witness for the amended C3: ceilings 1 then 3 presented by address 5
keep its ledger within 3, and after consuming 3 a newer ceiling 2 is
rejected with `CeilingExceeded`. -/
theorem claim3_witness :
    BL.lookup0 (BL.landRun vAcc landBase
      [.claim 5 1 1 [], .claim 5 2 3 []]).claimedOf 5 ≤ 3 ∧
    BL.claimLands vAcc (BL.landRun vAcc landBase [.claim 5 1 1 [], .claim 5 2 3 []])
      5 1 2 [] = .error .ceilingExceeded := by
  constructor
  · refine (claim3_amended_ceiling vAcc 5 3).1 landBase
      [.claim 5 1 1 [], .claim 5 2 3 []] (by decide) ?_
    intro r hr
    fin_cases hr <;> exact fun _ => by decide
  · exact (claim3_amended_ceiling vAcc 5 3).2
      (BL.landRun vAcc landBase [.claim 5 1 1 [], .claim 5 2 3 []]) 1 2 []
      (by decide) rfl (by decide)

/-- A successful loyalty transaction keeps the live version, never removes a
used nonce, and marks the nonce it presented (which also forces the live
version). -/
theorem step_ok_preserves (env : WB.Env) (s t : WB.LState) (r : WB.Req)
    (h : WB.step env s r = .ok t) :
    (s.config.version = WB.VERSION → t.config.version = WB.VERSION) ∧
    (∀ n, n ∈ s.config.usedNonces → n ∈ t.config.usedNonces) ∧
    (∀ n, r.nonce? = some n →
      n ∈ t.config.usedNonces ∧ t.config.version = WB.VERSION) := by
  cases r with
  | claimBoxReq nonce type name credits ak av sig sender freshId =>
    cases hop : WB.claim_box env s.config nonce type name credits ak av sig
        sender freshId with
    | error e => simp [WB.step, hop] at h
    | ok p =>
      obtain ⟨cfg1, box⟩ := p
      obtain ⟨hv, hnn, hs, hcfg1, hbox⟩ :=
        claim_box_ok_inv _ _ _ _ _ _ _ _ _ _ _ _ _ hop
      simp only [WB.step, hop, exceptBind_ok, Except.ok.injEq] at h
      subst h
      refine ⟨fun hsv => ?_, fun n hmem => ?_, fun n hn2 => ?_⟩
      · rw [hcfg1]
        exact hsv
      · rw [hcfg1]
        exact List.mem_cons_of_mem nonce hmem
      · simp only [WB.Req.nonce?, Option.some.injEq] at hn2
        subst hn2
        refine ⟨?_, ?_⟩ <;> rw [hcfg1]
        · exact List.mem_cons_self nonce _
        · exact hv
  | syncReq boxIdx nonce credits sig sender =>
    cases hbox : s.boxes[boxIdx]? with
    | none => simp [WB.step, hbox] at h
    | some box =>
      cases hop : WB.sync env s.config box nonce credits sig sender with
      | error e => simp [WB.step, hbox, hop] at h
      | ok p =>
        obtain ⟨cfg1, box1⟩ := p
        obtain ⟨hv, hnn, hs, ho, hcfg1, hbox1⟩ :=
          sync_ok_inv _ _ _ _ _ _ _ _ _ hop
        simp only [WB.step, hbox, hop, exceptBind_ok, Except.ok.injEq] at h
        subst h
        refine ⟨fun hsv => ?_, fun n hmem => ?_, fun n hn2 => ?_⟩
        · rw [hcfg1]
          exact hsv
        · rw [hcfg1]
          exact List.mem_cons_of_mem nonce hmem
        · simp only [WB.Req.nonce?, Option.some.injEq] at hn2
          subst hn2
          refine ⟨?_, ?_⟩ <;> rw [hcfg1]
          · exact List.mem_cons_self nonce _
          · exact hv
  | issueTicketReq boxIdx nonce name recipient issuing ak av sig sender freshId =>
    cases hbox : s.boxes[boxIdx]? with
    | none => simp [WB.step, hbox] at h
    | some box =>
      cases hop : WB.issue_loyalty_ticket env s.config box nonce name recipient
          issuing ak av sig sender freshId with
      | error e => simp [WB.step, hbox, hop] at h
      | ok p =>
        obtain ⟨cfg1, box1, tk⟩ := p
        obtain ⟨hv, hnn, hc, hfind, hcfg1, hbox1, htk⟩ :=
          issue_ok_inv _ _ _ _ _ _ _ _ _ _ _ _ _ _ _ hop
        simp only [WB.step, hbox, hop, exceptBind_ok, Except.ok.injEq] at h
        subst h
        refine ⟨fun hsv => ?_, fun n hmem => ?_, fun n hn2 => ?_⟩
        · rw [hcfg1]
          exact hsv
        · rw [hcfg1]
          exact List.mem_cons_of_mem nonce hmem
        · simp only [WB.Req.nonce?, Option.some.injEq] at hn2
          subst hn2
          refine ⟨?_, ?_⟩ <;> rw [hcfg1]
          · exact List.mem_cons_self nonce _
          · exact hv
  | applyTicketReq boxIdx ticketIdx nonce sig sender =>
    cases hbox : s.boxes[boxIdx]? with
    | none => simp [WB.step, hbox] at h
    | some box =>
      cases htk : s.tickets[ticketIdx]? with
      | none => simp [WB.step, hbox, htk] at h
      | some ticket =>
        cases hop : WB.apply_loyalty_ticket env s.config box ticket nonce sig
            sender with
        | error e => simp [WB.step, hbox, htk, hop] at h
        | ok p =>
          obtain ⟨cfg1, box1⟩ := p
          obtain ⟨hv, hnn, hty, ho, hfind, hcfg1, hbox1⟩ :=
            apply_ok_inv _ _ _ _ _ _ _ _ _ hop
          simp only [WB.step, hbox, htk, hop, exceptBind_ok, Except.ok.injEq] at h
          subst h
          refine ⟨fun hsv => ?_, fun n hmem => ?_, fun n hn2 => ?_⟩
          · rw [hcfg1]
            exact hsv
          · rw [hcfg1]
            exact List.mem_cons_of_mem nonce hmem
          · simp only [WB.Req.nonce?, Option.some.injEq] at hn2
            subst hn2
            refine ⟨?_, ?_⟩ <;> rw [hcfg1]
            · exact List.mem_cons_self nonce _
            · exact hv
  | setSignerReq sg =>
    simp only [WB.step, Except.ok.injEq] at h
    subst h
    exact ⟨fun hsv => hsv, fun n hmem => hmem,
      fun n hn2 => by simp [WB.Req.nonce?] at hn2⟩
  | addCollectionReq cname v =>
    cases hac : WB.add_collection s.config cname v with
    | error e => simp [WB.step, hac] at h
    | ok c1 =>
      by_cases hdup : (s.config.collections.find? (fun p => p.1 = cname)).isSome
      · simp [WB.add_collection, hdup] at hac
      · have hc1 : c1 = { s.config with
            collections := s.config.collections ++ [(cname, v)] } := by
          simp [WB.add_collection, hdup] at hac
          exact hac.symm
        simp only [WB.step, hac, exceptBind_ok, Except.ok.injEq] at h
        subst h
        refine ⟨fun hsv => ?_, fun n hmem => ?_,
          fun n hn2 => by simp [WB.Req.nonce?] at hn2⟩
        · rw [hc1]
          exact hsv
        · rw [hc1]
          exact hmem
  | migrateReq capId =>
    cases hmig : WB.migrate s.config capId with
    | error e => simp [WB.step, hmig] at h
    | ok c1 =>
      by_cases hadm : s.config.admin ≠ capId
      · simp [WB.migrate, hadm] at hmig
      · by_cases hlt : s.config.version < WB.VERSION
        · have hc1 : c1 = { s.config with version := WB.VERSION } := by
            simp [WB.migrate, hadm, hlt] at hmig
            exact hmig.symm
          simp only [WB.step, hmig, exceptBind_ok, Except.ok.injEq] at h
          subst h
          refine ⟨fun hsv => ?_, fun n hmem => ?_,
            fun n hn2 => by simp [WB.Req.nonce?] at hn2⟩
          · rw [hc1]
          · rw [hc1]
            exact hmem
        · simp [WB.migrate, hadm, hlt] at hmig

/-- Presenting an already-used nonce at the live version is rejected with
`ENonceAlreadyUsed`, whatever the operation and its other arguments. -/
theorem step_used_nonce_rejected (env : WB.Env) (s : WB.LState) (r : WB.Req)
    (n : Nat) (hv : s.config.version = WB.VERSION) (hn : r.nonce? = some n)
    (hused : n ∈ s.config.usedNonces) (hwf : r.wf s) :
    WB.step env s r = .error .eNonceAlreadyUsed := by
  cases r with
  | claimBoxReq nonce type name credits ak av sig sender freshId =>
    simp only [WB.Req.nonce?, Option.some.injEq] at hn
    subst hn
    simp [WB.step, WB.claim_box, WB.assert_version, WB.assert_nonce,
          WB.nonce_used, hv, hused]
  | syncReq boxIdx nonce credits sig sender =>
    simp only [WB.Req.nonce?, Option.some.injEq] at hn
    subst hn
    have hlt : boxIdx < s.boxes.length := hwf
    simp [WB.step, List.getElem?_eq_getElem hlt, WB.sync, WB.assert_version,
          WB.assert_nonce, WB.nonce_used, hv, hused]
  | issueTicketReq boxIdx nonce name recipient issuing ak av sig sender freshId =>
    simp only [WB.Req.nonce?, Option.some.injEq] at hn
    subst hn
    have hlt : boxIdx < s.boxes.length := hwf
    simp [WB.step, List.getElem?_eq_getElem hlt, WB.issue_loyalty_ticket,
          WB.assert_version, WB.assert_nonce, WB.nonce_used, hv, hused]
  | applyTicketReq boxIdx ticketIdx nonce sig sender =>
    simp only [WB.Req.nonce?, Option.some.injEq] at hn
    subst hn
    obtain ⟨hltb, hltt⟩ := hwf
    simp [WB.step, List.getElem?_eq_getElem hltb, List.getElem?_eq_getElem hltt,
          WB.apply_loyalty_ticket, WB.assert_version, WB.assert_nonce,
          WB.nonce_used, hv, hused]
  | setSignerReq sg => simp [WB.Req.nonce?] at hn
  | addCollectionReq cname v => simp [WB.Req.nonce?] at hn
  | migrateReq capId => simp [WB.Req.nonce?] at hn

/-- Whether a transaction succeeds or aborts, the resulting state keeps the
live version and keeps every used nonce. -/
theorem applyReq_preserves (env : WB.Env) (s : WB.LState) (r : WB.Req) :
    (s.config.version = WB.VERSION →
      ((WB.applyReq env s r).1).config.version = WB.VERSION) ∧
    (∀ n, n ∈ s.config.usedNonces →
      n ∈ ((WB.applyReq env s r).1).config.usedNonces) := by
  cases hstep : WB.step env s r with
  | error e =>
    simp only [WB.applyReq, hstep]
    exact ⟨fun hv => hv, fun n hmem => hmem⟩
  | ok t =>
    have hp := step_ok_preserves env s t r hstep
    simp only [WB.applyReq, hstep]
    exact ⟨hp.1, hp.2.1⟩

/-- A whole run of transactions keeps the live version and keeps every used
nonce. -/
theorem run_preserves (env : WB.Env) (s : WB.LState) (rs : List WB.Req) :
    (s.config.version = WB.VERSION →
      (WB.run env s rs).config.version = WB.VERSION) ∧
    (∀ n, n ∈ s.config.usedNonces → n ∈ (WB.run env s rs).config.usedNonces) := by
  induction rs generalizing s with
  | nil => exact ⟨fun hv => hv, fun n hmem => hmem⟩
  | cons r rs ih =>
    have h1 := applyReq_preserves env s r
    have h2 := ih ((WB.applyReq env s r).1)
    exact ⟨fun hv => h2.1 (h1.1 hv), fun n hmem => h2.2 n (h1.2 n hmem)⟩

/-- C1: once any of the four loyalty operations succeeds consuming nonce
`n`, every subsequent invocation of any of these operations presenting `n`
— after any further sequence of transactions, and whatever its other
arguments — is rejected with `ENonceAlreadyUsed`. -/
theorem claim1_nonce_replay (env : WB.Env) (s t : WB.LState) (r r2 : WB.Req)
    (n : Nat) (rs : List WB.Req)
    (hok : WB.step env s r = .ok t) (hn : r.nonce? = some n)
    (hn2 : r2.nonce? = some n) (hwf : r2.wf (WB.run env t rs)) :
    WB.step env (WB.run env t rs) r2 = .error .eNonceAlreadyUsed := by
  obtain ⟨hpres1, hpres2, hmark⟩ := step_ok_preserves env s t r hok
  obtain ⟨hmem, hver⟩ := hmark n hn
  have hrun := run_preserves env t rs
  exact step_used_nonce_rejected env (WB.run env t rs) r2 n (hrun.1 hver) hn2
    (hrun.2 n hmem) hwf

/-- Witness for C1: a successful `claim_box` with nonce 7 makes a later
`sync` presenting nonce 7 (different operation, different arguments) fail
with `ENonceAlreadyUsed`. -/
theorem claim1_witness :
    WB.step envAcc ⟨cfgFresh, [], []⟩
        (.claimBoxReq 7 3 "b" 5 [] [] [] [0] 0) =
      .ok ⟨{ cfgFresh with usedNonces := [7] },
           [{ id := 0, type := 3, name := "b", infinity_credits := 5,
              attribute_keys := [], attribute_values := [] }], []⟩ ∧
    WB.step envAcc (WB.run envAcc ⟨{ cfgFresh with usedNonces := [7] },
        [{ id := 0, type := 3, name := "b", infinity_credits := 5,
           attribute_keys := [], attribute_values := [] }], []⟩ [])
        (.syncReq 0 7 9 [] [0]) = .error .eNonceAlreadyUsed := by
  refine ⟨rfl, ?_⟩
  exact claim1_nonce_replay envAcc ⟨cfgFresh, [], []⟩
    ⟨{ cfgFresh with usedNonces := [7] },
     [{ id := 0, type := 3, name := "b", infinity_credits := 5,
        attribute_keys := [], attribute_values := [] }], []⟩
    (.claimBoxReq 7 3 "b" 5 [] [] [] [0] 0) (.syncReq 0 7 9 [] [0]) 7 []
    rfl rfl rfl (by decide)
